import Mathlib

/-!
Verification of the flight-scheduler analytics core (`FlightDataProcessor` in
`src/lib/flight-data-processor.ts`).

The TypeScript class is shallowly embedded here:
* `Flight` mirrors `ProcessedFlightData` (timestamps are minutes since
  2025-07-25T00:00, the day of the hardcoded sample; their exact values are
  irrelevant to every statistic computed by the class).
* JavaScript number semantics matter only in two divisions that can be `0/0`;
  the type `JsNum` models the reachable JS values (`NaN`, the infinities from
  dividing a nonzero number by zero, and finite values as exact rationals).
* `Math.random()` outcomes are modelled as an oracle `rng : ℕ → ℚ` of values
  drawn from `[0, 1)`, consumed sequentially exactly as the code draws them.
* The mutable singleton (`dataCache`, `lastUpdated`) is an explicit
  `EngineState` threaded through the operations; `fetchCount` counts
  consultations of the external flight-log source, so "no re-fetch" and
  "exactly one re-fetch" are statable.
-/

namespace FlightScheduler

/-- Mirrors the `FlightStatus` string enum of the source. -/
inductive FlightStatus where
  | SCHEDULED
  | DELAYED
  | DEPARTED
  | ARRIVED
  | CANCELLED
deriving DecidableEq, Repr

/-- Mirrors the `ProcessedFlightData` interface field for field. -/
structure Flight where
  id : String
  flightNumber : String
  origin : String
  destination : String
  scheduledDeparture : ℤ
  scheduledArrival : ℤ
  actualDeparture : Option ℤ
  actualArrival : Option ℤ
  status : FlightStatus
  delayMinutes : Option ℤ
  aircraft : Option String
  airportCode : String
  scheduledHour : ℕ
  dayOfWeek : ℕ
  flightDuration : ℤ
deriving DecidableEq, Repr

/-- The first of the five hardcoded records returned by `simulateCSVLoading`
(flight AI101, 20 minutes late). -/
def firstSimFlight : Flight :=
  { id := "1", flightNumber := "AI101", origin := "BOM", destination := "IXC",
    scheduledDeparture := 360, scheduledArrival := 490,
    actualDeparture := some 380, actualArrival := some 494,
    status := FlightStatus.DEPARTED, delayMinutes := some 20,
    aircraft := some "A20N (VT-EXU)", airportCode := "BOM",
    scheduledHour := 6, dayOfWeek := 4, flightDuration := 114 }

/-- The five hardcoded records returned by `simulateCSVLoading` (the CSV loader
simulation the class uses as its external flight-log source). Timestamps are
minutes since 2025-07-25T00:00. -/
def simulatedCSVData : List Flight :=
  [ firstSimFlight,
    { id := "2", flightNumber := "AI102", origin := "BOM", destination := "HYD",
      scheduledDeparture := 360, scheduledArrival := 445,
      actualDeparture := some 377, actualArrival := some 446,
      status := FlightStatus.DEPARTED, delayMinutes := some 17,
      aircraft := some "A20N (VT-TQW)", airportCode := "BOM",
      scheduledHour := 6, dayOfWeek := 4, flightDuration := 69 },
    { id := "3", flightNumber := "AI103", origin := "BOM", destination := "DEL",
      scheduledDeparture := 360, scheduledArrival := 475,
      actualDeparture := some 368, actualArrival := some 469,
      status := FlightStatus.DEPARTED, delayMinutes := some 8,
      aircraft := some "A21N (VT-NCB)", airportCode := "BOM",
      scheduledHour := 6, dayOfWeek := 4, flightDuration := 102 },
    { id := "4", flightNumber := "AI104", origin := "BOM", destination := "BLR",
      scheduledDeparture := 365, scheduledArrival := 475,
      actualDeparture := some 365, actualArrival := some 442,
      status := FlightStatus.ARRIVED, delayMinutes := some 0,
      aircraft := some "A21N (VT-IWU)", airportCode := "BOM",
      scheduledHour := 6, dayOfWeek := 4, flightDuration := 77 },
    { id := "5", flightNumber := "AI105", origin := "BOM", destination := "CMB",
      scheduledDeparture := 370, scheduledArrival := 525,
      actualDeparture := some 414, actualArrival := some 540,
      status := FlightStatus.DELAYED, delayMinutes := some 44,
      aircraft := some "A20N (VT-IJZ)", airportCode := "BOM",
      scheduledHour := 6, dayOfWeek := 4, flightDuration := 127 } ]

/-- The JavaScript number values reachable in the two statistics divisions:
`NaN` (from `0/0`), the two infinities (from `x/0`, `x ≠ 0`), and finite
values modelled as exact rationals. -/
inductive JsNum where
  | nan
  | inf
  | negInf
  | num (q : ℚ)
deriving DecidableEq, Repr

/-- JS division of two finite numbers: `0/0 = NaN`, `x/0 = ±Infinity` for
`x ≠ 0`, ordinary division otherwise. -/
def jsDivNn (a b : ℚ) : JsNum :=
  if b = 0 then
    (if a = 0 then JsNum.nan else if 0 < a then JsNum.inf else JsNum.negInf)
  else JsNum.num (a / b)

/-- JS multiplication by the positive constant 100 (`NaN` and the infinities
absorb). -/
def jsMul100 : JsNum → JsNum
  | JsNum.nan => JsNum.nan
  | JsNum.inf => JsNum.inf
  | JsNum.negInf => JsNum.negInf
  | JsNum.num q => JsNum.num (q * 100)

/-- `Math.round(x * 100) / 100`, the 2-decimal rounding idiom of the source.
`Math.round` is round-half-toward-positive-infinity, i.e. `⌊x + 1/2⌋`;
`NaN` and the infinities pass through, as in JS. -/
def jsRoundDiv100 : JsNum → JsNum
  | JsNum.nan => JsNum.nan
  | JsNum.inf => JsNum.inf
  | JsNum.negInf => JsNum.negInf
  | JsNum.num q => JsNum.num (((⌊q * 100 + 1/2⌋ : ℤ) : ℚ) / 100)

/-- JS `Math.round` on a finite value. -/
def jround (q : ℚ) : ℤ := ⌊q + 1/2⌋

/-- `f.delayMinutes || 0`: JS falsy coercion sends `undefined` (and `0`) to
`0`, which for integer delays is exactly `Option.getD 0`. -/
def delayVal (f : Flight) : ℤ := f.delayMinutes.getD 0

/-- `f.delayMinutes && f.delayMinutes > 0`: the first conjunct is JS
truthiness (present and nonzero), the second the comparison. -/
def isDelayed (f : Flight) : Bool :=
  match f.delayMinutes with
  | none => false
  | some d => decide (d ≠ 0) && decide (0 < d)

/-- `Map.prototype.get`, on the insertion-ordered association list that models
a JS `Map<number, number>`. -/
def mapGet : List (ℕ × ℕ) → ℕ → Option ℕ
  | [], _ => none
  | p :: rest, k => if p.1 = k then some p.2 else mapGet rest k

/-- `Map.prototype.set`: updating an existing key keeps its insertion
position; a new key is appended at the end, as JS `Map` iteration order
prescribes. -/
def mapSet : List (ℕ × ℕ) → ℕ → ℕ → List (ℕ × ℕ)
  | [], k, v => [(k, v)]
  | p :: rest, k, v => if p.1 = k then (k, v) :: rest else p :: mapSet rest k v

/-- One step of the `hourlyCounts` accumulation:
`hourlyCounts.set(f.scheduledHour, (hourlyCounts.get(f.scheduledHour) || 0) + 1)`. -/
def bumpHour (m : List (ℕ × ℕ)) (f : Flight) : List (ℕ × ℕ) :=
  mapSet m f.scheduledHour ((mapGet m f.scheduledHour).getD 0 + 1)

/-- The `hourlyCounts` map built by both `getAirportStatistics` and
`getPeakHourAnalysis`, in JS `Map` insertion order (first occurrence of each
hour in the log). -/
def hourlyCounts (fs : List Flight) : List (ℕ × ℕ) :=
  fs.foldl bumpHour []

/-- One step of the peak-hour fold: `if (count > peakFlights) { peakFlights =
count; peakHour = hour }`, the accumulator being `(peakHour, peakFlights)`. -/
def peakStep (acc : ℕ × ℕ) (p : ℕ × ℕ) : ℕ × ℕ :=
  if acc.2 < p.2 then (p.1, p.2) else acc

/-- The `hourlyCounts.forEach` loop of `getAirportStatistics`, starting from
`peakHour = 0`, `peakFlights = 0`. -/
def peakFold (m : List (ℕ × ℕ)) : ℕ × ℕ :=
  m.foldl peakStep (0, 0)

/-- `Math.max(...hourlyCounts.values())`, as used on a nonempty map (on an
empty map JS yields `-Infinity`, but then there are no buckets to divide by
it; this total version returns 0 there and is never consumed in that case). -/
def maxCount (m : List (ℕ × ℕ)) : ℕ :=
  m.foldr (fun p acc => max p.2 acc) 0

/-- Mirrors the `AirportStatistics` interface; the `delayDistribution` record
literal is flattened into its three fields. -/
structure AirportStatistics where
  totalFlights : ℕ
  delayedFlights : ℕ
  avgDelay : JsNum
  peakHour : ℕ
  peakFlights : ℕ
  delayMinor : ℕ
  delayMajor : ℕ
  delayCritical : ℕ
  capacityUtilization : JsNum
deriving DecidableEq, Repr

/-- The pure computation of `getAirportStatistics` on the flight log obtained
from `getFlightData`, line for line from the source. -/
def computeStatistics (fs : List Flight) : AirportStatistics :=
  let totalFlights := fs.length
  let delayedFlights := (fs.filter (fun f => isDelayed f)).length
  let sumDelay : ℤ := fs.foldl (fun s f => s + delayVal f) 0
  let avgDelay := jsDivNn (sumDelay : ℚ) (totalFlights : ℚ)
  let peak := peakFold (hourlyCounts fs)
  let minor := (fs.filter (fun f => decide (|delayVal f| < 15))).length
  let major := (fs.filter (fun f =>
    decide (15 ≤ |delayVal f|) && decide (|delayVal f| < 60))).length
  let critical := (fs.filter (fun f => decide (60 ≤ |delayVal f|))).length
  let capacity := jsDivNn (totalFlights : ℚ) ((peak.2 : ℚ) * 24)
  { totalFlights := totalFlights
    delayedFlights := delayedFlights
    avgDelay := jsRoundDiv100 avgDelay
    peakHour := peak.1
    peakFlights := peak.2
    delayMinor := minor
    delayMajor := major
    delayCritical := critical
    capacityUtilization := jsRoundDiv100 (jsMul100 capacity) }

/-- Mirrors the `PeakHourAnalysis` interface. -/
structure PeakBucket where
  hour : ℕ
  flightCount : ℕ
  utilization : ℤ
deriving DecidableEq, Repr

/-- The unsorted bucket list of `getPeakHourAnalysis`:
`Array.from(hourlyCounts.entries()).map(...)` in map insertion order. -/
def mkBuckets (fs : List Flight) : List PeakBucket :=
  let hc := hourlyCounts fs
  hc.map (fun p =>
    { hour := p.1, flightCount := p.2,
      utilization := jround ((p.2 : ℚ) / (maxCount hc : ℚ) * 100) })

/-- Insert a later bucket behind all already-placed buckets of `≥` count:
combined with the left-to-right fold below this is exactly a stable descending
sort by `flightCount`, the semantics of the (stable, ES2019+)
`sort((a, b) => b.flightCount - a.flightCount)`. -/
def descInsert (b : PeakBucket) : List PeakBucket → List PeakBucket
  | [] => [b]
  | c :: cs =>
    if b.flightCount ≤ c.flightCount then c :: descInsert b cs else b :: c :: cs

/-- Stable descending-by-`flightCount` sort. -/
def sortDesc (l : List PeakBucket) : List PeakBucket :=
  l.foldl (fun acc b => descInsert b acc) []

/-- The full `getPeakHourAnalysis` computation on a flight log. -/
def computePeakAnalysis (fs : List Flight) : List PeakBucket :=
  sortDesc (mkBuckets fs)

/-- The mutable singleton state of `FlightDataProcessor`: the two keyed maps
`dataCache` and `lastUpdated` (timestamps in ms as `ℤ`), plus a count of
consultations of the external flight-log source so that re-fetches are
observable. -/
structure EngineState where
  dataCache : String → Option (List Flight)
  lastUpdated : String → Option ℤ
  fetchCount : ℕ

/-- The state of the freshly constructed singleton: both maps empty. -/
def initialState : EngineState :=
  { dataCache := fun _ => none, lastUpdated := fun _ => none, fetchCount := 0 }

/-- Point update of a keyed map. -/
def setEntry {α : Type} (m : String → Option α) (k : String) (v : α) :
    String → Option α :=
  fun k' => if k' = k then some v else m k'

/-- The freshness window: `5 * 60 * 1000` ms. -/
def msWindow : ℤ := 5 * 60 * 1000

/-- `loadFlightDataFromCSV`, generic in the outcome of the external source
(the `await this.simulateCSVLoading(filePath)` call): on success the data is
cached under the fixed key `"BOM"` with the current time; on failure the
error is rethrown and no cache write happens. Either way the source was
consulted exactly once. -/
def loadCSVGen {ε : Type} (st : EngineState) (src : Except ε (List Flight))
    (now : ℤ) : Except ε (List Flight) × EngineState :=
  match src with
  | Except.error e => (Except.error e, { st with fetchCount := st.fetchCount + 1 })
  | Except.ok fs =>
    (Except.ok fs,
     { dataCache := setEntry st.dataCache "BOM" fs,
       lastUpdated := setEntry st.lastUpdated "BOM" now,
       fetchCount := st.fetchCount + 1 })

/-- `getFlightData`, generic in the source outcome: return the cached
sequence if an entry for `code` exists and is younger than the window,
otherwise go through `loadFlightDataFromCSV`. -/
def getFlightDataGen {ε : Type} (st : EngineState) (code : String) (now : ℤ)
    (src : Except ε (List Flight)) : Except ε (List Flight) × EngineState :=
  match st.dataCache code, st.lastUpdated code with
  | some cached, some t =>
    if now - t < msWindow then (Except.ok cached, st) else loadCSVGen st src now
  | some _, none => loadCSVGen st src now
  | none, _ => loadCSVGen st src now

/-- The cache-freshness test of `getFlightData`
(`cachedData && lastUpdate && (Date.now() - lastUpdate.getTime()) < 5*60*1000`;
arrays and `Date` objects are always truthy, so the first two conjuncts are
presence tests). -/
def isFresh (st : EngineState) (code : String) (now : ℤ) : Bool :=
  match st.dataCache code, st.lastUpdated code with
  | some _, some t => decide (now - t < msWindow)
  | _, _ => false

/-- `getFlightData` as it runs in this repository, where the source is
`simulateCSVLoading` and never fails (error type `Empty`). -/
def getFlightData (st : EngineState) (code : String) (now : ℤ) :
    List Flight × EngineState :=
  match getFlightDataGen st code now (Except.ok simulatedCSVData : Except Empty (List Flight)) with
  | (Except.ok d, st') => (d, st')
  | (Except.error e, _) => e.elim

/-- `Math.floor(Math.random() * 30) - 15`, for one draw `r ∈ [0, 1)`. -/
def randDelta (r : ℚ) : ℤ := ⌊r * 30⌋ - 15

/-- The record update applied to a selected flight in `getRealTimeUpdates`:
`delayMinutes` becomes `Math.max(0, (delayMinutes || 0) + randomDelay)` and
`status` becomes `DELAYED` when the perturbation is strictly positive,
everything else spread unchanged. -/
def mkUpd (f : Flight) (d : ℤ) : Flight :=
  { f with
    delayMinutes := some (max 0 (delayVal f + d)),
    status := if 0 < d then FlightStatus.DELAYED else f.status }

/-- The `flightData.map(...)` body of `getRealTimeUpdates`, consuming the
`Math.random()` oracle sequentially: index `k` decides selection
(`< 0.1`), and a selected record consumes one further draw for its delta. -/
def applyUpdatesAux (rng : ℕ → ℚ) : ℕ → List Flight → List Flight
  | _, [] => []
  | k, f :: fs =>
    if rng k < 1/10 then
      mkUpd f (randDelta (rng (k + 1))) :: applyUpdatesAux rng (k + 2) fs
    else
      f :: applyUpdatesAux rng (k + 1) fs

/-- `getRealTimeUpdates`: obtain the log via `getFlightData`, perturb it, and
write the perturbed sequence back into the cache under the requested code
with a refreshed timestamp before returning it. -/
def getRealTimeUpdates (st : EngineState) (code : String) (now : ℤ)
    (rng : ℕ → ℚ) : List Flight × EngineState :=
  let p := getFlightData st code now
  let updated := applyUpdatesAux rng 0 p.1
  (updated,
   { dataCache := setEntry p.2.dataCache code updated,
     lastUpdated := setEntry p.2.lastUpdated code now,
     fetchCount := p.2.fetchCount })

/-- Record-by-record relation between an input log and the output of the
`getRealTimeUpdates` map: each record is either passed through unchanged or
replaced by `mkUpd` with a delta in `[-15, 14]` (the image of `randDelta` on
`[0, 1)`). -/
inductive UpdRel : List Flight → List Flight → Prop where
  | nil : UpdRel [] []
  | skip (f : Flight) {fs out : List Flight} :
      UpdRel fs out → UpdRel (f :: fs) (f :: out)
  | sel (f : Flight) (d : ℤ) {fs out : List Flight} :
      -15 ≤ d → d ≤ 14 → UpdRel fs out → UpdRel (f :: fs) (mkUpd f d :: out)

/-- Field-by-field frame relation between an input record and the
corresponding output record of the `getRealTimeUpdates` map: all fields
other than `delayMinutes` and `status` agree, and the record is either
unchanged or exactly a `mkUpd` image of the input. -/
def frameAgrees (f g : Flight) : Prop :=
  g.id = f.id ∧ g.flightNumber = f.flightNumber ∧ g.origin = f.origin ∧
  g.destination = f.destination ∧ g.scheduledDeparture = f.scheduledDeparture ∧
  g.scheduledArrival = f.scheduledArrival ∧ g.actualDeparture = f.actualDeparture ∧
  g.actualArrival = f.actualArrival ∧ g.aircraft = f.aircraft ∧
  g.airportCode = f.airportCode ∧ g.scheduledHour = f.scheduledHour ∧
  g.dayOfWeek = f.dayOfWeek ∧ g.flightDuration = f.flightDuration ∧
  (g = f ∨ ∃ d : ℤ, g = mkUpd f d)

/-- A plain scheduled flight with no recorded delay, used as a concrete
input in witnesses. -/
def sampleFlight : Flight :=
  { id := "w", flightNumber := "AI100", origin := "BOM", destination := "DEL",
    scheduledDeparture := 0, scheduledArrival := 60, actualDeparture := none,
    actualArrival := none, status := FlightStatus.SCHEDULED,
    delayMinutes := none, aircraft := none, airportCode := "BOM",
    scheduledHour := 0, dayOfWeek := 0, flightDuration := 60 }

/-- Every `delayMinutes` actually present in the log is nonnegative
(equivalently, `delayVal` is nonnegative, absent counting as 0). -/
def DelayNonneg (fs : List Flight) : Prop :=
  ∀ f ∈ fs, 0 ≤ delayVal f

instance : DecidablePred DelayNonneg := fun fs =>
  inferInstanceAs (Decidable (∀ f ∈ fs, 0 ≤ delayVal f))

/-- All cached logs satisfy `DelayNonneg`. -/
def CacheNonneg (st : EngineState) : Prop :=
  ∀ code data, st.dataCache code = some data → DelayNonneg data

/-- The engine states reachable in this repository: starting from the fresh
singleton, by any interleaving of loads, reads and real-time updates (the
statistics operations touch the state only through `getFlightData`). -/
inductive Reachable : EngineState → Prop where
  | init : Reachable initialState
  | load {st : EngineState} (now : ℤ) :
      Reachable st →
      Reachable (loadCSVGen st (Except.ok simulatedCSVData : Except Empty (List Flight)) now).2
  | read {st : EngineState} (code : String) (now : ℤ) :
      Reachable st → Reachable (getFlightData st code now).2
  | update {st : EngineState} (code : String) (now : ℤ) (rng : ℕ → ℚ) :
      Reachable st → Reachable (getRealTimeUpdates st code now rng).2

/-- First-occurrence key accumulation: scan a list of hours, appending each
hour the first time it is seen. `firstOccurAux [] hs` is the list of distinct
hours of `hs` in order of first occurrence. -/
def firstOccurAux : List ℕ → List ℕ → List ℕ
  | ks, [] => ks
  | ks, h :: t => firstOccurAux (if h ∈ ks then ks else ks ++ [h]) t

/-- The state after a successful refresh: whatever code was asked for, the
fetched sequence is stored under the fixed key `"BOM"` with the current
timestamp, and the source was consulted once more. -/
def refreshedBOM (st : EngineState) (now : ℤ) : EngineState :=
  { dataCache := setEntry st.dataCache "BOM" simulatedCSVData,
    lastUpdated := setEntry st.lastUpdated "BOM" now,
    fetchCount := st.fetchCount + 1 }

/-! ### Supporting lemmas -/

theorem peakFold_go_snd (l : List (ℕ × ℕ)) :
    ∀ acc : ℕ × ℕ, (l.foldl peakStep acc).2 = max acc.2 (maxCount l) := by
  induction l with
  | nil => intro acc; simp [maxCount]
  | cons p t ih =>
    intro acc
    have hstep : (peakStep acc p).2 = max acc.2 p.2 := by
      unfold peakStep
      split <;> omega
    calc ((p :: t).foldl peakStep acc).2
        = (t.foldl peakStep (peakStep acc p)).2 := by rfl
      _ = max (peakStep acc p).2 (maxCount t) := ih _
      _ = max acc.2 (maxCount (p :: t)) := by
          rw [hstep]
          show max (max acc.2 p.2) (maxCount t) = max acc.2 (max p.2 (maxCount t))
          omega

theorem peakFold_snd (l : List (ℕ × ℕ)) : (peakFold l).2 = maxCount l := by
  unfold peakFold
  rw [peakFold_go_snd]
  omega

theorem mem_mapSet (m : List (ℕ × ℕ)) (k v : ℕ) :
    ∀ p ∈ mapSet m k v, p = (k, v) ∨ p ∈ m := by
  induction m with
  | nil => intro p hp; simp [mapSet] at hp; left; exact hp
  | cons q rest ih =>
    intro p hp
    unfold mapSet at hp
    by_cases hq : q.1 = k
    · simp [hq] at hp
      rcases hp with h | h
      · left; exact h
      · right; exact List.mem_cons_of_mem _ h
    · simp [hq] at hp
      rcases hp with h | h
      · right; simp [h]
      · rcases ih p h with h' | h'
        · left; exact h'
        · right; exact List.mem_cons_of_mem _ h'

theorem hourlyCounts_go_pos (fs : List Flight) :
    ∀ m : List (ℕ × ℕ), (∀ p ∈ m, 1 ≤ p.2) →
      ∀ p ∈ List.foldl bumpHour m fs, 1 ≤ p.2 := by
  induction fs with
  | nil => intro m hm p hp; exact hm p hp
  | cons f t ih =>
    intro m hm p hp
    refine ih (bumpHour m f) ?_ p hp
    intro q hq
    rcases mem_mapSet _ _ _ q hq with h | h
    · subst h; omega
    · exact hm q h

theorem hourlyCounts_pos (fs : List Flight) :
    ∀ p ∈ hourlyCounts fs, 1 ≤ p.2 :=
  hourlyCounts_go_pos fs [] (by intro p hp; cases hp)

theorem bumpHour_ne_nil (m : List (ℕ × ℕ)) (f : Flight) : bumpHour m f ≠ [] := by
  unfold bumpHour
  cases m with
  | nil => simp [mapSet]
  | cons q rest =>
    unfold mapSet
    split <;> simp

theorem foldl_bump_ne_nil (fs : List Flight) :
    ∀ m : List (ℕ × ℕ), m ≠ [] → List.foldl bumpHour m fs ≠ [] := by
  induction fs with
  | nil => intro m hm; exact hm
  | cons f t ih => intro m _; exact ih (bumpHour m f) (bumpHour_ne_nil m f)

theorem hourlyCounts_ne_nil (fs : List Flight) (h : fs ≠ []) :
    hourlyCounts fs ≠ [] := by
  cases fs with
  | nil => exact absurd rfl h
  | cons f t =>
    show List.foldl bumpHour (bumpHour [] f) t ≠ []
    exact foldl_bump_ne_nil t _ (bumpHour_ne_nil [] f)

theorem maxCount_pos (m : List (ℕ × ℕ)) (hne : m ≠ [])
    (hpos : ∀ p ∈ m, 1 ≤ p.2) : 1 ≤ maxCount m := by
  cases m with
  | nil => exact absurd rfl hne
  | cons p t =>
    have : 1 ≤ p.2 := hpos p (List.mem_cons_self p t)
    show 1 ≤ max p.2 (maxCount t)
    omega

theorem peakFlights_pos (fs : List Flight) (h : fs ≠ []) :
    1 ≤ (computeStatistics fs).peakFlights := by
  show 1 ≤ (peakFold (hourlyCounts fs)).2
  rw [peakFold_snd]
  exact maxCount_pos _ (hourlyCounts_ne_nil fs h) (hourlyCounts_pos fs)

theorem emptyStats_avg_nan : (computeStatistics []).avgDelay = JsNum.nan := by
  show jsRoundDiv100 (jsDivNn ((0 : ℤ) : ℚ) ((0 : ℕ) : ℚ)) = JsNum.nan
  norm_num [jsDivNn, jsRoundDiv100]

theorem emptyStats_capacity_nan :
    (computeStatistics []).capacityUtilization = JsNum.nan := by
  show jsRoundDiv100 (jsMul100 (jsDivNn ((0 : ℕ) : ℚ) (((0 : ℕ) : ℚ) * 24))) = JsNum.nan
  norm_num [jsDivNn, jsMul100, jsRoundDiv100]

theorem delay_bucket_sum (fs : List Flight) :
    (fs.filter (fun f => decide (|delayVal f| < 15))).length +
    (fs.filter (fun f => decide (15 ≤ |delayVal f|) && decide (|delayVal f| < 60))).length +
    (fs.filter (fun f => decide (60 ≤ |delayVal f|))).length = fs.length := by
  induction fs with
  | nil => rfl
  | cons f t ih =>
    simp only [List.filter_cons, List.length_cons]
    rcases lt_trichotomy (|delayVal f|) 15 with h1 | h1 | h1 <;>
      rcases lt_trichotomy (|delayVal f|) 60 with h2 | h2 | h2 <;>
      simp only [decide_eq_true_eq] <;>
      split_ifs <;> simp_all <;> omega

theorem peak_le (l : List (ℕ × ℕ)) :
    ∀ ph pf : ℕ, maxCount l ≤ pf → l.foldl peakStep (ph, pf) = (ph, pf) := by
  induction l with
  | nil => intro ph pf _; rfl
  | cons p t ih =>
    intro ph pf h
    have hM : maxCount (p :: t) = max p.2 (maxCount t) := rfl
    have hp : ¬ pf < p.2 := by omega
    have hstep : peakStep (ph, pf) p = (ph, pf) := by unfold peakStep; simp [hp]
    show t.foldl peakStep (peakStep (ph, pf) p) = (ph, pf)
    rw [hstep]
    exact ih ph pf (by omega)

theorem peak_gt (l : List (ℕ × ℕ)) :
    ∀ ph pf : ℕ, pf < maxCount l →
      l.find? (fun p => p.2 == maxCount l) = some (l.foldl peakStep (ph, pf)) := by
  induction l with
  | nil => intro ph pf h; simp [maxCount] at h
  | cons p t ih =>
    intro ph pf h
    have hM : maxCount (p :: t) = max p.2 (maxCount t) := rfl
    by_cases hsel : pf < p.2
    · have hstep : peakStep (ph, pf) p = (p.1, p.2) := by unfold peakStep; simp [hsel]
      by_cases hrest : p.2 < maxCount t
      · have hMt : maxCount (p :: t) = maxCount t := by omega
        have hpred : ¬ ((fun q : ℕ × ℕ => q.2 == maxCount (p :: t)) p = true) := by
          simp only [beq_iff_eq]
          omega
        rw [List.find?_cons_of_neg t hpred]
        have : (p :: t).foldl peakStep (ph, pf) = t.foldl peakStep (p.1, p.2) := by
          show t.foldl peakStep (peakStep (ph, pf) p) = _
          rw [hstep]
        rw [this, hMt]
        exact ih p.1 p.2 hrest
      · have hMp : maxCount (p :: t) = p.2 := by omega
        have hpred : ((fun q : ℕ × ℕ => q.2 == maxCount (p :: t)) p = true) := by
          simp only [beq_iff_eq]
          omega
        rw [List.find?_cons_of_pos t hpred]
        have : (p :: t).foldl peakStep (ph, pf) = t.foldl peakStep (p.1, p.2) := by
          show t.foldl peakStep (peakStep (ph, pf) p) = _
          rw [hstep]
        rw [this, peak_le t p.1 p.2 (by omega)]
    · have hrest : pf < maxCount t := by omega
      have hMt : maxCount (p :: t) = maxCount t := by omega
      have hpred : ¬ ((fun q : ℕ × ℕ => q.2 == maxCount (p :: t)) p = true) := by
        simp only [beq_iff_eq]
        omega
      rw [List.find?_cons_of_neg t hpred]
      have hstep : peakStep (ph, pf) p = (ph, pf) := by unfold peakStep; simp [hsel]
      have : (p :: t).foldl peakStep (ph, pf) = t.foldl peakStep (ph, pf) := by
        show t.foldl peakStep (peakStep (ph, pf) p) = _
        rw [hstep]
      rw [this, hMt]
      exact ih ph pf hrest

theorem mapSet_keys (m : List (ℕ × ℕ)) (k v : ℕ) :
    (mapSet m k v).map Prod.fst =
      if k ∈ m.map Prod.fst then m.map Prod.fst else m.map Prod.fst ++ [k] := by
  induction m with
  | nil => simp [mapSet]
  | cons q rest ih =>
    unfold mapSet
    by_cases hq : q.1 = k
    · simp [hq]
    · have hk : k ∈ (q :: rest).map Prod.fst ↔ k ∈ rest.map Prod.fst := by
        simp [Ne.symm hq]
      by_cases hmem : k ∈ rest.map Prod.fst
      · simp only [hq, if_false, List.map_cons, ih, hmem, if_true]
        simp [hk.mpr hmem, hmem]
      · have hnotin : k ∉ (q :: rest).map Prod.fst := fun hc => hmem (hk.mp hc)
        simp only [List.map_cons] at hnotin
        simp only [hq, if_false, List.map_cons, ih, hmem, if_false]
        rw [if_neg hnotin, List.cons_append]

theorem hourlyCounts_go_keys (fs : List Flight) :
    ∀ m : List (ℕ × ℕ),
      (List.foldl bumpHour m fs).map Prod.fst =
        firstOccurAux (m.map Prod.fst) (fs.map Flight.scheduledHour) := by
  induction fs with
  | nil => intro m; rfl
  | cons f t ih =>
    intro m
    show (List.foldl bumpHour (bumpHour m f) t).map Prod.fst = _
    rw [ih (bumpHour m f)]
    have : (bumpHour m f).map Prod.fst =
        if f.scheduledHour ∈ m.map Prod.fst then m.map Prod.fst
        else m.map Prod.fst ++ [f.scheduledHour] := mapSet_keys m _ _
    rw [this]
    rfl

theorem hourlyCounts_keys (fs : List Flight) :
    (hourlyCounts fs).map Prod.fst = firstOccurAux [] (fs.map Flight.scheduledHour) :=
  hourlyCounts_go_keys fs []

theorem getFlightDataGen_fresh {ε : Type} (st : EngineState) (code : String)
    (now : ℤ) (src : Except ε (List Flight)) (d : List Flight) (t : ℤ)
    (hd : st.dataCache code = some d) (ht : st.lastUpdated code = some t)
    (hw : now - t < msWindow) :
    getFlightDataGen st code now src = (Except.ok d, st) := by
  unfold getFlightDataGen
  rw [hd, ht]
  simp [hw]

theorem getFlightDataGen_stale {ε : Type} (st : EngineState) (code : String)
    (now : ℤ) (src : Except ε (List Flight)) (h : isFresh st code now = false) :
    getFlightDataGen st code now src = loadCSVGen st src now := by
  unfold getFlightDataGen
  unfold isFresh at h
  cases hc : st.dataCache code with
  | none => rfl
  | some d =>
    cases hl : st.lastUpdated code with
    | none => rfl
    | some t =>
      rw [hc, hl] at h
      simp only [decide_eq_false_iff_not] at h
      show (if now - t < msWindow then (Except.ok d, st) else loadCSVGen st src now) =
        loadCSVGen st src now
      rw [if_neg h]

theorem getFlightData_fresh (st : EngineState) (code : String) (now : ℤ)
    (d : List Flight) (t : ℤ) (hd : st.dataCache code = some d)
    (ht : st.lastUpdated code = some t) (hw : now - t < msWindow) :
    getFlightData st code now = (d, st) := by
  unfold getFlightData
  rw [getFlightDataGen_fresh st code now _ d t hd ht hw]

theorem getFlightData_stale (st : EngineState) (code : String) (now : ℤ)
    (h : isFresh st code now = false) :
    getFlightData st code now = (simulatedCSVData, refreshedBOM st now) := by
  unfold getFlightData
  rw [getFlightDataGen_stale st code now _ h]
  rfl

theorem refreshedBOM_cache_BOM (st : EngineState) (now : ℤ) :
    (refreshedBOM st now).dataCache "BOM" = some simulatedCSVData := rfl

theorem refreshedBOM_last_BOM (st : EngineState) (now : ℤ) :
    (refreshedBOM st now).lastUpdated "BOM" = some now := rfl

theorem isFresh_refreshedBOM_false (st : EngineState) (now now'' : ℤ)
    (h : msWindow ≤ now'' - now) :
    isFresh (refreshedBOM st now) "BOM" now'' = false := by
  unfold isFresh
  rw [refreshedBOM_cache_BOM, refreshedBOM_last_BOM]
  simp only [decide_eq_false_iff_not]
  omega

theorem randDelta_bounds (r : ℚ) (h0 : 0 ≤ r) (h1 : r < 1) :
    -15 ≤ randDelta r ∧ randDelta r ≤ 14 := by
  unfold randDelta
  have hl : (0 : ℤ) ≤ ⌊r * 30⌋ := Int.le_floor.mpr (by push_cast; nlinarith)
  have hu : ⌊r * 30⌋ < 30 := Int.floor_lt.mpr (by push_cast; nlinarith)
  omega

theorem randDelta_surj (d : ℤ) (h1 : -15 ≤ d) (h2 : d ≤ 14) :
    ∃ r : ℚ, 0 ≤ r ∧ r < 1 ∧ randDelta r = d := by
  refine ⟨((d : ℚ) + 15) / 30, ?_, ?_, ?_⟩
  · have : (-15 : ℚ) ≤ (d : ℚ) := by exact_mod_cast h1
    linarith
  · have : (d : ℚ) ≤ 14 := by exact_mod_cast h2
    linarith
  · unfold randDelta
    rw [div_mul_cancel₀ _ (by norm_num : (30 : ℚ) ≠ 0)]
    have : ((d : ℚ) + 15) = ((d + 15 : ℤ) : ℚ) := by push_cast; ring
    rw [this, Int.floor_intCast]
    ring

theorem applyUpdatesAux_cons (rng : ℕ → ℚ) (k : ℕ) (f : Flight) (t : List Flight) :
    applyUpdatesAux rng k (f :: t) =
      if rng k < 1/10 then
        mkUpd f (randDelta (rng (k + 1))) :: applyUpdatesAux rng (k + 2) t
      else f :: applyUpdatesAux rng (k + 1) t := rfl

theorem applyUpdates_id (rng : ℕ → ℚ) (h : ∀ n, ¬ rng n < 1/10) :
    ∀ (fs : List Flight) (k : ℕ), applyUpdatesAux rng k fs = fs := by
  intro fs
  induction fs with
  | nil => intro k; rfl
  | cons f t ih =>
    intro k
    rw [applyUpdatesAux_cons, if_neg (h k), ih]

theorem applyUpdates_rel (rng : ℕ → ℚ) (hr : ∀ n, 0 ≤ rng n ∧ rng n < 1) :
    ∀ (fs : List Flight) (k : ℕ), UpdRel fs (applyUpdatesAux rng k fs) := by
  intro fs
  induction fs with
  | nil => intro k; exact UpdRel.nil
  | cons f t ih =>
    intro k
    by_cases hsel : rng k < 1/10
    · rw [applyUpdatesAux_cons, if_pos hsel]
      have hb := randDelta_bounds (rng (k + 1)) (hr (k + 1)).1 (hr (k + 1)).2
      exact UpdRel.sel f _ hb.1 hb.2 (ih (k + 2))
    · rw [applyUpdatesAux_cons, if_neg hsel]
      exact UpdRel.skip f (ih (k + 1))

theorem mkUpd_frame (f : Flight) (d : ℤ) : frameAgrees f (mkUpd f d) :=
  ⟨rfl, rfl, rfl, rfl, rfl, rfl, rfl, rfl, rfl, rfl, rfl, rfl, rfl, Or.inr ⟨d, rfl⟩⟩

theorem frameAgrees_refl (f : Flight) : frameAgrees f f :=
  ⟨rfl, rfl, rfl, rfl, rfl, rfl, rfl, rfl, rfl, rfl, rfl, rfl, rfl, Or.inl rfl⟩

theorem applyUpdates_length (rng : ℕ → ℚ) :
    ∀ (fs : List Flight) (k : ℕ), (applyUpdatesAux rng k fs).length = fs.length := by
  intro fs
  induction fs with
  | nil => intro k; rfl
  | cons f t ih =>
    intro k
    by_cases hsel : rng k < 1/10
    · rw [applyUpdatesAux_cons, if_pos hsel]
      simp [ih]
    · rw [applyUpdatesAux_cons, if_neg hsel]
      simp [ih]

theorem applyUpdates_pointwise (rng : ℕ → ℚ) :
    ∀ (fs : List Flight) (k i : ℕ) (f : Flight), fs[i]? = some f →
      ∃ g, (applyUpdatesAux rng k fs)[i]? = some g ∧ frameAgrees f g := by
  intro fs
  induction fs with
  | nil => intro k i f hf; simp at hf
  | cons a t ih =>
    intro k i f hf
    by_cases hsel : rng k < 1/10
    · rw [applyUpdatesAux_cons, if_pos hsel]
      cases i with
      | zero =>
        simp only [List.getElem?_cons_zero, Option.some.injEq] at hf
        subst hf
        exact ⟨mkUpd a (randDelta (rng (k + 1))), by simp, mkUpd_frame a _⟩
      | succ n =>
        simp only [List.getElem?_cons_succ] at hf ⊢
        exact ih (k + 2) n f hf
    · rw [applyUpdatesAux_cons, if_neg hsel]
      cases i with
      | zero =>
        simp only [List.getElem?_cons_zero, Option.some.injEq] at hf
        subst hf
        exact ⟨a, by simp, frameAgrees_refl a⟩
      | succ n =>
        simp only [List.getElem?_cons_succ] at hf ⊢
        exact ih (k + 1) n f hf

theorem mkUpd_delay_nonneg (f : Flight) (d : ℤ) : 0 ≤ delayVal (mkUpd f d) := by
  show 0 ≤ (some (max 0 (delayVal f + d))).getD 0
  simp

theorem applyUpdates_nonneg (rng : ℕ → ℚ) :
    ∀ (fs : List Flight), DelayNonneg fs → ∀ k : ℕ,
      DelayNonneg (applyUpdatesAux rng k fs) := by
  intro fs
  induction fs with
  | nil => intro _ k f hf; exact absurd hf (List.not_mem_nil f)
  | cons a t ih =>
    intro h k
    have ha : 0 ≤ delayVal a := h a (List.mem_cons_self a t)
    have ht : DelayNonneg t := fun f hf => h f (List.mem_cons_of_mem a hf)
    by_cases hsel : rng k < 1/10
    · rw [applyUpdatesAux_cons, if_pos hsel]
      intro f hf
      rcases List.mem_cons.mp hf with h' | h'
      · subst h'; exact mkUpd_delay_nonneg a _
      · exact ih ht (k + 2) f h'
    · rw [applyUpdatesAux_cons, if_neg hsel]
      intro f hf
      rcases List.mem_cons.mp hf with h' | h'
      · subst h'; exact ha
      · exact ih ht (k + 1) f h'

theorem simulated_nonneg : DelayNonneg simulatedCSVData := by decide

theorem isFresh_true_elim (st : EngineState) (code : String) (now : ℤ)
    (h : isFresh st code now = true) :
    ∃ d t, st.dataCache code = some d ∧ st.lastUpdated code = some t ∧
      now - t < msWindow := by
  unfold isFresh at h
  cases hc : st.dataCache code with
  | none => rw [hc] at h; cases h
  | some d =>
    cases hl : st.lastUpdated code with
    | none => rw [hc, hl] at h; cases h
    | some t =>
      rw [hc, hl] at h
      simp only [decide_eq_true_eq] at h
      exact ⟨d, t, rfl, rfl, h⟩

theorem setEntry_nonneg (m : String → Option (List Flight)) (k : String)
    (v : List Flight) (hm : ∀ c data, m c = some data → DelayNonneg data)
    (hv : DelayNonneg v) :
    ∀ c data, setEntry m k v c = some data → DelayNonneg data := by
  intro c data hc
  unfold setEntry at hc
  by_cases hck : c = k
  · rw [if_pos hck] at hc
    cases hc
    exact hv
  · rw [if_neg hck] at hc
    exact hm c data hc

theorem getFlightData_nonneg (st : EngineState) (hst : CacheNonneg st)
    (code : String) (now : ℤ) :
    DelayNonneg (getFlightData st code now).1 ∧
    CacheNonneg (getFlightData st code now).2 := by
  cases hfr : isFresh st code now
  · rw [getFlightData_stale st code now hfr]
    refine ⟨simulated_nonneg, ?_⟩
    exact setEntry_nonneg st.dataCache "BOM" simulatedCSVData hst simulated_nonneg
  · obtain ⟨d, t, hd, ht, hw⟩ := isFresh_true_elim st code now hfr
    rw [getFlightData_fresh st code now d t hd ht hw]
    exact ⟨hst code d hd, hst⟩

theorem reachable_cache_nonneg : ∀ st : EngineState, Reachable st → CacheNonneg st := by
  intro st h
  induction h with
  | init => intro code data hcd; simp [initialState] at hcd
  | load now _ ih =>
    exact setEntry_nonneg _ "BOM" simulatedCSVData ih simulated_nonneg
  | read code now _ ih =>
    exact (getFlightData_nonneg _ ih code now).2
  | update code now rng _ ih =>
    rename_i st' _
    have h1 := getFlightData_nonneg st' ih code now
    exact setEntry_nonneg _ code _ h1.2 (applyUpdates_nonneg rng _ h1.1 0)

theorem mem_descInsert (b : PeakBucket) (l : List PeakBucket) :
    ∀ x ∈ descInsert b l, x = b ∨ x ∈ l := by
  induction l with
  | nil => intro x hx; simp [descInsert] at hx; left; exact hx
  | cons c cs ih =>
    intro x hx
    unfold descInsert at hx
    by_cases hs : b.flightCount ≤ c.flightCount
    · rw [if_pos hs] at hx
      rcases List.mem_cons.mp hx with h | h
      · right; simp [h]
      · rcases ih x h with h' | h'
        · left; exact h'
        · right; exact List.mem_cons_of_mem c h'
    · rw [if_neg hs] at hx
      rcases List.mem_cons.mp hx with h | h
      · left; exact h
      · right; exact h

theorem perm_descInsert (b : PeakBucket) (l : List PeakBucket) :
    List.Perm (descInsert b l) (b :: l) := by
  induction l with
  | nil => rfl
  | cons c cs ih =>
    unfold descInsert
    by_cases hs : b.flightCount ≤ c.flightCount
    · rw [if_pos hs]
      exact (ih.cons c).trans (List.Perm.swap b c cs)
    · rw [if_neg hs]

theorem pairwise_descInsert (b : PeakBucket) (l : List PeakBucket)
    (hl : List.Pairwise (fun a b => b.flightCount ≤ a.flightCount) l) :
    List.Pairwise (fun a b => b.flightCount ≤ a.flightCount) (descInsert b l) := by
  induction l with
  | nil => simp [descInsert]
  | cons c cs ih =>
    unfold descInsert
    rcases List.pairwise_cons.mp hl with ⟨hc, hcs⟩
    by_cases hs : b.flightCount ≤ c.flightCount
    · rw [if_pos hs]
      refine List.pairwise_cons.mpr ⟨?_, ih hcs⟩
      intro x hx
      rcases mem_descInsert b cs x hx with h | h
      · subst h; exact hs
      · exact hc x h
    · rw [if_neg hs]
      refine List.pairwise_cons.mpr ⟨?_, hl⟩
      intro x hx
      rcases List.mem_cons.mp hx with h | h
      · subst h; omega
      · have := hc x h
        omega

theorem filter_descInsert (b : PeakBucket) (l : List PeakBucket) (c : ℕ)
    (hl : List.Pairwise (fun a b => b.flightCount ≤ a.flightCount) l) :
    (descInsert b l).filter (fun x => x.flightCount == c) =
      if b.flightCount = c then
        l.filter (fun x => x.flightCount == c) ++ [b]
      else l.filter (fun x => x.flightCount == c) := by
  induction l with
  | nil =>
    show [b].filter (fun x => x.flightCount == c) = _
    by_cases hb : b.flightCount = c <;>
      simp [List.filter_cons, hb]
  | cons d ds ih =>
    rcases List.pairwise_cons.mp hl with ⟨hd, hds⟩
    unfold descInsert
    by_cases hs : b.flightCount ≤ d.flightCount
    · rw [if_pos hs]
      rw [List.filter_cons, List.filter_cons]
      by_cases hdc : d.flightCount = c
      · simp only [hdc, beq_self_eq_true, if_pos]
        rw [ih hds]
        by_cases hb : b.flightCount = c <;> simp [hb]
      · have : (d.flightCount == c) = false := by simp [hdc]
        simp only [this, Bool.false_eq_true, if_false]
        exact ih hds
    · rw [if_neg hs]
      rw [List.filter_cons]
      by_cases hb : b.flightCount = c
      · simp only [hb, beq_self_eq_true, if_pos, if_true]
        have hnil : (d :: ds).filter (fun x => x.flightCount == c) = [] := by
          refine List.filter_eq_nil_iff.mpr ?_
          intro x hx
          have hxd : x.flightCount ≤ d.flightCount := by
            rcases List.mem_cons.mp hx with h | h
            · subst h; exact le_refl _
            · exact hd x h
          simp only [beq_iff_eq]
          omega
        rw [hnil]
        rfl
      · have : (b.flightCount == c) = false := by simp [hb]
        simp only [this, Bool.false_eq_true, if_false, if_neg hb]

theorem sortDesc_go_pairwise (l : List PeakBucket) :
    ∀ acc : List PeakBucket,
      List.Pairwise (fun a b => b.flightCount ≤ a.flightCount) acc →
      List.Pairwise (fun a b => b.flightCount ≤ a.flightCount)
        (l.foldl (fun acc b => descInsert b acc) acc) := by
  induction l with
  | nil => intro acc h; exact h
  | cons x xs ih => intro acc h; exact ih (descInsert x acc) (pairwise_descInsert x acc h)

theorem sortDesc_go_perm (l : List PeakBucket) :
    ∀ acc : List PeakBucket,
      List.Perm (l.foldl (fun acc b => descInsert b acc) acc) (acc ++ l) := by
  induction l with
  | nil => intro acc; simp
  | cons x xs ih =>
    intro acc
    have h1 := ih (descInsert x acc)
    have h2 : List.Perm (descInsert x acc ++ xs) ((x :: acc) ++ xs) :=
      (perm_descInsert x acc).append_right xs
    have h3 : List.Perm (acc ++ x :: xs) (x :: (acc ++ xs)) := List.perm_middle
    exact (h1.trans h2).trans h3.symm

theorem sortDesc_go_filter (l : List PeakBucket) (c : ℕ) :
    ∀ acc : List PeakBucket,
      List.Pairwise (fun a b => b.flightCount ≤ a.flightCount) acc →
      (l.foldl (fun acc b => descInsert b acc) acc).filter
          (fun x => x.flightCount == c) =
        acc.filter (fun x => x.flightCount == c) ++
          l.filter (fun x => x.flightCount == c) := by
  induction l with
  | nil => intro acc _; simp
  | cons x xs ih =>
    intro acc hacc
    have h1 := ih (descInsert x acc) (pairwise_descInsert x acc hacc)
    show (xs.foldl (fun acc b => descInsert b acc) (descInsert x acc)).filter
        (fun x => x.flightCount == c) = _
    rw [h1, filter_descInsert x acc c hacc, List.filter_cons]
    by_cases hx : x.flightCount = c
    · simp only [hx, beq_self_eq_true, if_pos, if_true]
      simp
    · have : (x.flightCount == c) = false := by simp [hx]
      simp only [this, Bool.false_eq_true, if_false, if_neg hx]

theorem sortDesc_pairwise (l : List PeakBucket) :
    List.Pairwise (fun a b => b.flightCount ≤ a.flightCount) (sortDesc l) :=
  sortDesc_go_pairwise l [] List.Pairwise.nil

theorem sortDesc_perm (l : List PeakBucket) : List.Perm (sortDesc l) l :=
  sortDesc_go_perm l []

theorem sortDesc_filter (l : List PeakBucket) (c : ℕ) :
    (sortDesc l).filter (fun x => x.flightCount == c) =
      l.filter (fun x => x.flightCount == c) :=
  sortDesc_go_filter l c [] List.Pairwise.nil

theorem le_maxCount (m : List (ℕ × ℕ)) : ∀ p ∈ m, p.2 ≤ maxCount m := by
  induction m with
  | nil => intro p hp; cases hp
  | cons q t ih =>
    intro p hp
    have hM : maxCount (q :: t) = max q.2 (maxCount t) := rfl
    rcases List.mem_cons.mp hp with h | h
    · subst h; omega
    · have := ih p h; omega

theorem firstOccurAux_nodup (hs : List ℕ) :
    ∀ ks : List ℕ, ks.Nodup → (firstOccurAux ks hs).Nodup := by
  induction hs with
  | nil => intro ks h; exact h
  | cons h t ih =>
    intro ks hks
    show (firstOccurAux (if h ∈ ks then ks else ks ++ [h]) t).Nodup
    by_cases hmem : h ∈ ks
    · rw [if_pos hmem]; exact ih ks hks
    · rw [if_neg hmem]
      exact ih (ks ++ [h]) (by simp [List.nodup_append, hks, hmem])

theorem firstOccurAux_mem (hs : List ℕ) :
    ∀ (ks : List ℕ) (x : ℕ), x ∈ firstOccurAux ks hs ↔ x ∈ ks ∨ x ∈ hs := by
  induction hs with
  | nil => intro ks x; simp [firstOccurAux]
  | cons h t ih =>
    intro ks x
    show x ∈ firstOccurAux (if h ∈ ks then ks else ks ++ [h]) t ↔ _
    by_cases hmem : h ∈ ks
    · rw [if_pos hmem, ih ks x]
      constructor
      · rintro (hx | hx)
        · exact Or.inl hx
        · exact Or.inr (List.mem_cons_of_mem h hx)
      · rintro (hx | hx)
        · exact Or.inl hx
        · rcases List.mem_cons.mp hx with h' | h'
          · subst h'; exact Or.inl hmem
          · exact Or.inr h'
    · rw [if_neg hmem, ih (ks ++ [h]) x]
      simp only [List.mem_append, List.mem_singleton, List.mem_cons]
      tauto

theorem jround_bounds (q : ℚ) (h0 : 0 ≤ q) (h1 : q ≤ 100) :
    0 ≤ jround q ∧ jround q ≤ 100 := by
  unfold jround
  constructor
  · exact Int.le_floor.mpr (by push_cast; linarith)
  · have : ⌊q + 1/2⌋ ≤ ⌊(100 + 1/2 : ℚ)⌋ := Int.floor_le_floor (by linarith)
    have h100 : ⌊(100 + 1/2 : ℚ)⌋ = 100 := by norm_num
    omega

/-! ### Claims -/

/-- Claim C5: on the five-flight log produced by the simulated loader
(delays [20, 17, 8, 0, 44], all at scheduled hour 6), `getAirportStatistics`
returns totalFlights 5, delayedFlights 4, avgDelay 17.8, delay distribution
{minor 2, major 3, critical 0}, peakHour 6, peakFlights 5 and
capacityUtilization 4.17. -/
theorem c5_concrete_scenario :
    (computeStatistics simulatedCSVData).totalFlights = 5 ∧
    (computeStatistics simulatedCSVData).delayedFlights = 4 ∧
    (computeStatistics simulatedCSVData).avgDelay = JsNum.num (178/10) ∧
    (computeStatistics simulatedCSVData).peakHour = 6 ∧
    (computeStatistics simulatedCSVData).peakFlights = 5 ∧
    (computeStatistics simulatedCSVData).delayMinor = 2 ∧
    (computeStatistics simulatedCSVData).delayMajor = 3 ∧
    (computeStatistics simulatedCSVData).delayCritical = 0 ∧
    (computeStatistics simulatedCSVData).capacityUtilization = JsNum.num (417/100) := by
  refine ⟨rfl, rfl, ?_, rfl, rfl, rfl, rfl, rfl, ?_⟩
  · show jsRoundDiv100 (jsDivNn ((89 : ℤ) : ℚ) ((5 : ℕ) : ℚ)) = JsNum.num (178/10)
    norm_num [jsDivNn, jsRoundDiv100]
  · show jsRoundDiv100 (jsMul100 (jsDivNn ((5 : ℕ) : ℚ) (((5 : ℕ) : ℚ) * 24))) =
      JsNum.num (417/100)
    norm_num [jsDivNn, jsMul100, jsRoundDiv100]

/-- Claim C2, counterexample: on an empty flight log `getAirportStatistics`
returns `NaN` (the JavaScript value of `0/0`) for both `avgDelay` and
`capacityUtilization`, not `0` as the claim states. -/
theorem c2_counterexample :
    (computeStatistics []).avgDelay = JsNum.nan ∧
    (computeStatistics []).capacityUtilization = JsNum.nan ∧
    JsNum.nan ≠ JsNum.num 0 :=
  ⟨emptyStats_avg_nan, emptyStats_capacity_nan, by intro h; cases h⟩

/-- Claim C2, amended: for an empty flight log `getAirportStatistics` yields
`avgDelay = NaN` and `capacityUtilization = NaN` (JavaScript `0/0` — no
error is raised, but the values are not 0); moreover `peakFlights = 0` can
only happen for the empty log (every nonempty log has `peakFlights ≥ 1`), so
the `peakFlights = 0` division likewise yields `NaN`, never a
division-by-zero failure. -/
theorem c2_empty_log_nan :
    (computeStatistics []).avgDelay = JsNum.nan ∧
    (computeStatistics []).capacityUtilization = JsNum.nan ∧
    (∀ fs : List Flight, fs ≠ [] → 1 ≤ (computeStatistics fs).peakFlights) := by
  refine ⟨emptyStats_avg_nan, emptyStats_capacity_nan, ?_⟩
  intro fs h
  exact peakFlights_pos fs h

/-- Claim C2 witness: the amended statement applied to the singleton log. -/
theorem c2_empty_log_nan_witness :
    1 ≤ (computeStatistics simulatedCSVData).peakFlights :=
  c2_empty_log_nan.2.2 simulatedCSVData (by decide)

/-- Claim C4: `delayDistribution` buckets every record by the absolute
magnitude of its `delayMinutes` into minor (< 15), major (15–59) and
critical (≥ 60); an absent `delayMinutes` counts as 0 and thus as minor; and
the three bucket counts sum to `totalFlights` exactly. -/
theorem c4_delay_distribution (fs : List Flight) :
    (computeStatistics fs).delayMinor =
      (fs.filter (fun f => decide (|delayVal f| < 15))).length ∧
    (computeStatistics fs).delayMajor =
      (fs.filter (fun f => decide (15 ≤ |delayVal f|) && decide (|delayVal f| < 60))).length ∧
    (computeStatistics fs).delayCritical =
      (fs.filter (fun f => decide (60 ≤ |delayVal f|))).length ∧
    (∀ f : Flight, f.delayMinutes = none → delayVal f = 0 ∧ |delayVal f| < 15) ∧
    (computeStatistics fs).delayMinor + (computeStatistics fs).delayMajor +
      (computeStatistics fs).delayCritical = (computeStatistics fs).totalFlights := by
  refine ⟨rfl, rfl, rfl, ?_, ?_⟩
  · intro f hf
    unfold delayVal
    rw [hf]
    exact ⟨rfl, by decide⟩
  · exact delay_bucket_sum fs

/-- Claim C7: `peakHour` is the scheduled hour whose bucket has the strictly
greatest count; among tied hours the first one in the map's iteration order —
which is first-occurrence order in the log — wins. Stated as: `peakFlights`
is the maximum bucket count, `(peakHour, peakFlights)` is the *first* entry
of `hourlyCounts` attaining that maximum, and the keys of `hourlyCounts` are
the log's hours in first-occurrence order. -/
theorem c7_peak_hour (fs : List Flight) (h : fs ≠ []) :
    (computeStatistics fs).peakFlights = maxCount (hourlyCounts fs) ∧
    (hourlyCounts fs).find? (fun p => p.2 == maxCount (hourlyCounts fs)) =
      some ((computeStatistics fs).peakHour, (computeStatistics fs).peakFlights) ∧
    (hourlyCounts fs).map Prod.fst =
      firstOccurAux [] (fs.map Flight.scheduledHour) := by
  have h1 : (computeStatistics fs).peakFlights = (peakFold (hourlyCounts fs)).2 := rfl
  have h2 : (computeStatistics fs).peakHour = (peakFold (hourlyCounts fs)).1 := rfl
  have hpos : 0 < maxCount (hourlyCounts fs) :=
    maxCount_pos _ (hourlyCounts_ne_nil fs h) (hourlyCounts_pos fs)
  refine ⟨by rw [h1, peakFold_snd], ?_, hourlyCounts_keys fs⟩
  rw [h1, h2]
  exact peak_gt (hourlyCounts fs) 0 0 hpos

/-- Claim C7 witness: the theorem applied to a concrete log with an hour tie
(hours 9, 14, 9, 14 — both hours count 2, the first encountered, 9, wins). -/
theorem c7_peak_hour_witness :
    (hourlyCounts (simulatedCSVData.map (fun f =>
        { f with scheduledHour := if f.id = "1" ∨ f.id = "3" then 9 else 14 }))).find?
      (fun p => p.2 == maxCount (hourlyCounts (simulatedCSVData.map (fun f =>
        { f with scheduledHour := if f.id = "1" ∨ f.id = "3" then 9 else 14 })))) =
      some ((computeStatistics (simulatedCSVData.map (fun f =>
        { f with scheduledHour := if f.id = "1" ∨ f.id = "3" then 9 else 14 }))).peakHour,
            (computeStatistics (simulatedCSVData.map (fun f =>
        { f with scheduledHour := if f.id = "1" ∨ f.id = "3" then 9 else 14 }))).peakFlights) :=
  (c7_peak_hour _ (by decide)).2.1

/-- Claim C1, counterexample: calling `getFlightData` for airport code "DEL"
with no cache entry fetches fresh data but does NOT replace the cache entry
stored under "DEL" — the fetched sequence is cached under the fixed key
"BOM" instead, so "DEL" still has no data and no refresh timestamp after the
call. -/
theorem c1_counterexample :
    (getFlightData initialState "DEL" 0).2.dataCache "DEL" = none ∧
    (getFlightData initialState "DEL" 0).2.lastUpdated "DEL" = none ∧
    (getFlightData initialState "DEL" 0).2.dataCache "BOM" = some simulatedCSVData := by
  exact ⟨rfl, rfl, rfl⟩

/-- Claim C1, amended: if a cache entry for the requested code exists and is
less than five minutes old, `getFlightData` returns the cached sequence with
the state unchanged (no re-fetch); otherwise it fetches a fresh sequence,
stores it in the cache under the fixed key "BOM" (updating BOM's data and
refresh timestamp; the requested code's own entry is only replaced when that
code is "BOM"), and returns the fresh sequence. Consequently, for airport
code "BOM", two calls within the freshness window return the identical
cached sequence with exactly one fetch, and a call after the window triggers
exactly one re-fetch. -/
theorem c1_cache_freshness :
    (∀ (st : EngineState) (code : String) (now : ℤ) (d : List Flight) (t : ℤ),
        st.dataCache code = some d → st.lastUpdated code = some t →
        now - t < msWindow → getFlightData st code now = (d, st)) ∧
    (∀ (st : EngineState) (code : String) (now : ℤ),
        isFresh st code now = false →
        getFlightData st code now = (simulatedCSVData, refreshedBOM st now)) ∧
    (∀ (st : EngineState) (now now' : ℤ),
        isFresh st "BOM" now = false → now' - now < msWindow →
        getFlightData (getFlightData st "BOM" now).2 "BOM" now' =
          ((getFlightData st "BOM" now).1, (getFlightData st "BOM" now).2) ∧
        (getFlightData st "BOM" now).2.fetchCount = st.fetchCount + 1) ∧
    (∀ (st : EngineState) (now now'' : ℤ),
        isFresh st "BOM" now = false → msWindow ≤ now'' - now →
        (getFlightData (getFlightData st "BOM" now).2 "BOM" now'').2.fetchCount =
          st.fetchCount + 2) := by
  refine ⟨getFlightData_fresh, getFlightData_stale, ?_, ?_⟩
  · intro st now now' h hw
    rw [getFlightData_stale st "BOM" now h]
    refine ⟨?_, rfl⟩
    exact getFlightData_fresh (refreshedBOM st now) "BOM" now' simulatedCSVData now
      (refreshedBOM_cache_BOM st now) (refreshedBOM_last_BOM st now) hw
  · intro st now now'' h hw
    rw [getFlightData_stale st "BOM" now h,
        getFlightData_stale (refreshedBOM st now) "BOM" now''
          (isFresh_refreshedBOM_false st now now'' hw)]
    rfl

/-- Claim C1 witness: starting from the fresh singleton, a fetch at time 0
followed by a call at time 100 (inside the window) returns the cached
sequence with the state unchanged and a single fetch on record. -/
theorem c1_cache_freshness_witness :
    getFlightData (getFlightData initialState "BOM" 0).2 "BOM" 100 =
      ((getFlightData initialState "BOM" 0).1, (getFlightData initialState "BOM" 0).2) ∧
    (getFlightData initialState "BOM" 0).2.fetchCount = initialState.fetchCount + 1 :=
  c1_cache_freshness.2.2.1 initialState 0 100 rfl (by norm_num [msWindow])

/-- Claim C8: if the external flight-log source fails during a refresh, the
call surfaces exactly the source's error (the spec's `SourceUnavailable`)
without internal retry — the source is consulted exactly once — and the
previous cache entries and timestamps of every airport code are left
untouched. -/
theorem c8_source_failure {ε : Type} (st : EngineState) (code : String)
    (now : ℤ) (e : ε) (h : isFresh st code now = false) :
    getFlightDataGen st code now (Except.error e) =
      (Except.error e, { st with fetchCount := st.fetchCount + 1 }) ∧
    (∀ c : String,
      ({ st with fetchCount := st.fetchCount + 1 } : EngineState).dataCache c =
        st.dataCache c ∧
      ({ st with fetchCount := st.fetchCount + 1 } : EngineState).lastUpdated c =
        st.lastUpdated c) := by
  refine ⟨?_, fun c => ⟨rfl, rfl⟩⟩
  rw [getFlightDataGen_stale st code now _ h]
  rfl

/-- Claim C8 witness: the theorem applied to the fresh singleton and a unit
error. -/
theorem c8_source_failure_witness :
    getFlightDataGen initialState "BOM" 0 (Except.error ()) =
      (Except.error (), { initialState with fetchCount := initialState.fetchCount + 1 }) :=
  (c8_source_failure initialState "BOM" 0 () rfl).1

/-- Claim C3, counterexample: the perturbation `Math.floor(Math.random()*30) - 15`
can never equal +15 — no draw in `[0, 1)` produces it — so the perturbation
is not a uniformly-distributed integer in [-15, +15] as claimed (its range
is [-15, +14]). -/
theorem c3_counterexample : ¬ ∃ r : ℚ, 0 ≤ r ∧ r < 1 ∧ randDelta r = 15 := by
  rintro ⟨r, h0, h1, he⟩
  unfold randDelta at he
  have h30 : (30 : ℤ) ≤ ⌊r * 30⌋ := by omega
  have : (30 : ℚ) ≤ r * 30 := by
    have := Int.le_floor.mp h30
    exact_mod_cast this
  nlinarith

/-- Claim C3, amended: each record selected for perturbation by
`getRealTimeUpdates` has its `delayMinutes` changed by an integer in
[-15, +14] (namely `⌊r·30⌋ − 15` for the uniform draw `r ∈ [0,1)`, every
value of that range being attainable), the result clamped to a minimum of 0,
`status` forced to `DELAYED` exactly when the perturbation is strictly
positive (all per `mkUpd`), and the perturbed sequence is written back into
the cache under the requested airport code with a refreshed timestamp before
being returned. -/
theorem c3_realtime_perturbation (st : EngineState) (code : String) (now : ℤ)
    (rng : ℕ → ℚ) (hr : ∀ n, 0 ≤ rng n ∧ rng n < 1) :
    UpdRel (getFlightData st code now).1 (getRealTimeUpdates st code now rng).1 ∧
    (getRealTimeUpdates st code now rng).2.dataCache code =
      some (getRealTimeUpdates st code now rng).1 ∧
    (getRealTimeUpdates st code now rng).2.lastUpdated code = some now ∧
    (∀ d : ℤ, -15 ≤ d → d ≤ 14 → ∃ r : ℚ, 0 ≤ r ∧ r < 1 ∧ randDelta r = d) := by
  refine ⟨applyUpdates_rel rng hr _ 0, ?_, ?_, randDelta_surj⟩
  · show setEntry _ code _ code = _
    unfold setEntry
    rw [if_pos rfl]
    rfl
  · show setEntry _ code now code = _
    unfold setEntry
    rw [if_pos rfl]

/-- Claim C3 witness: the theorem applied to the fresh singleton with the
constant-zero oracle (which selects every record). -/
theorem c3_realtime_perturbation_witness :
    (getRealTimeUpdates initialState "BOM" 0 (fun _ => 0)).2.dataCache "BOM" =
      some (getRealTimeUpdates initialState "BOM" 0 (fun _ => 0)).1 :=
  (c3_realtime_perturbation initialState "BOM" 0 (fun _ => 0)
    (fun _ => ⟨le_refl 0, by norm_num⟩)).2.1

/-- Claim C9: for every reachable engine state — every flight log this
program can ever feed to `getRealTimeUpdates` — and every outcome of the
random choices, every record of the returned sequence has a nonnegative
`delayMinutes` whenever one is present. -/
theorem c9_no_negative_delay (st : EngineState) (h : Reachable st)
    (code : String) (now : ℤ) (rng : ℕ → ℚ) :
    ∀ f ∈ (getRealTimeUpdates st code now rng).1,
      ∀ d : ℤ, f.delayMinutes = some d → 0 ≤ d := by
  have h1 := (getFlightData_nonneg st (reachable_cache_nonneg st h) code now).1
  have h2 : DelayNonneg (applyUpdatesAux rng 0 (getFlightData st code now).1) :=
    applyUpdates_nonneg rng _ h1 0
  intro f hf d hd
  have h3 := h2 f hf
  unfold delayVal at h3
  rw [hd] at h3
  exact h3

/-- Claim C9 witness: the theorem applied to the fresh singleton (reachable
by construction) with an oracle that selects no record, instantiated at the
first returned record and its delay of 20 minutes. -/
theorem c9_no_negative_delay_witness :
    ∃ f d, f ∈ (getRealTimeUpdates initialState "BOM" 0 (fun _ => 1/2)).1 ∧
      f.delayMinutes = some d ∧ 0 ≤ d := by
  have hout : (getRealTimeUpdates initialState "BOM" 0 (fun _ => 1/2)).1 =
      simulatedCSVData := by
    show applyUpdatesAux (fun _ => 1/2) 0 (getFlightData initialState "BOM" 0).1 = _
    rw [show (getFlightData initialState "BOM" 0).1 = simulatedCSVData from rfl]
    exact applyUpdates_id _ (fun n => by norm_num) simulatedCSVData 0
  have hf : firstSimFlight ∈
      (getRealTimeUpdates initialState "BOM" 0 (fun _ => 1/2)).1 := by
    rw [hout]
    exact List.mem_cons_self _ _
  exact ⟨firstSimFlight, 20, hf, rfl,
    c9_no_negative_delay initialState Reachable.init "BOM" 0 (fun _ => 1/2)
      firstSimFlight hf 20 rfl⟩

/-- Claim C10: for every flight log and every outcome of the random choices,
the sequence produced by the `getRealTimeUpdates` map has the same length
and record order as the input, and each output record agrees with the input
record at the same position on every field other than `delayMinutes` and
`status` — it is either unchanged or exactly a `mkUpd` image of it. -/
theorem c10_frame_preservation (rng : ℕ → ℚ) (k : ℕ) (fs : List Flight) :
    (applyUpdatesAux rng k fs).length = fs.length ∧
    (∀ (i : ℕ) (f : Flight), fs[i]? = some f →
      ∃ g, (applyUpdatesAux rng k fs)[i]? = some g ∧ frameAgrees f g) :=
  ⟨applyUpdates_length rng fs k, fun i f hf => applyUpdates_pointwise rng fs k i f hf⟩

/-- Claim C10 witness: the theorem applied to a one-record log with the
constant-zero oracle. -/
theorem c10_frame_preservation_witness :
    ∃ g, (applyUpdatesAux (fun _ => 0) 0 [sampleFlight])[0]? = some g ∧
      frameAgrees sampleFlight g :=
  (c10_frame_preservation (fun _ => 0) 0 [sampleFlight]).2 0 sampleFlight rfl

theorem mkBuckets_map_hour (fs : List Flight) :
    (mkBuckets fs).map PeakBucket.hour = (hourlyCounts fs).map Prod.fst := by
  unfold mkBuckets
  rw [List.map_map]
  rfl

/-- Claim C6: `getPeakHourAnalysis` returns one bucket per hour actually
present in the log (absent hours omitted), sorted non-increasing by
`flightCount` with ties retaining the bucketing step's relative order
(stable sort), and every bucket's utilization equals
`round(flightCount / maxBucketCount × 100)` and lies in [0, 100]. -/
theorem c6_peak_hour_analysis (fs : List Flight) :
    List.Perm ((computePeakAnalysis fs).map PeakBucket.hour)
      ((hourlyCounts fs).map Prod.fst) ∧
    ((hourlyCounts fs).map Prod.fst).Nodup ∧
    (∀ h : ℕ, h ∈ (hourlyCounts fs).map Prod.fst ↔
      h ∈ fs.map Flight.scheduledHour) ∧
    List.Pairwise (fun a b => b.flightCount ≤ a.flightCount)
      (computePeakAnalysis fs) ∧
    (∀ c : ℕ, (computePeakAnalysis fs).filter (fun b => b.flightCount == c) =
      (mkBuckets fs).filter (fun b => b.flightCount == c)) ∧
    (∀ b ∈ computePeakAnalysis fs,
      b.utilization =
        jround ((b.flightCount : ℚ) / (maxCount (hourlyCounts fs) : ℚ) * 100) ∧
      0 ≤ b.utilization ∧ b.utilization ≤ 100) := by
  refine ⟨?_, ?_, ?_, sortDesc_pairwise (mkBuckets fs),
    fun c => sortDesc_filter (mkBuckets fs) c, ?_⟩
  · exact ((sortDesc_perm (mkBuckets fs)).map PeakBucket.hour).trans
      (mkBuckets_map_hour fs ▸ List.Perm.refl _)
  · rw [hourlyCounts_keys]
    exact firstOccurAux_nodup _ [] List.nodup_nil
  · intro h
    rw [hourlyCounts_keys, firstOccurAux_mem]
    simp
  · intro b hb
    have hb' : b ∈ mkBuckets fs := (sortDesc_perm (mkBuckets fs)).mem_iff.mp hb
    unfold mkBuckets at hb'
    rcases List.mem_map.mp hb' with ⟨p, hp, hpb⟩
    have hple : p.2 ≤ maxCount (hourlyCounts fs) := le_maxCount _ p hp
    have hpos : 1 ≤ maxCount (hourlyCounts fs) :=
      maxCount_pos _ (List.ne_nil_of_mem hp) (hourlyCounts_pos fs)
    subst hpb
    refine ⟨rfl, ?_⟩
    have hM : (0 : ℚ) < (maxCount (hourlyCounts fs) : ℚ) := by
      exact_mod_cast hpos
    have hq0 : (0 : ℚ) ≤ (p.2 : ℚ) / (maxCount (hourlyCounts fs) : ℚ) * 100 := by
      positivity
    have hq1 : (p.2 : ℚ) / (maxCount (hourlyCounts fs) : ℚ) * 100 ≤ 100 := by
      have hr : (p.2 : ℚ) / (maxCount (hourlyCounts fs) : ℚ) ≤ 1 :=
        (div_le_one hM).mpr (by exact_mod_cast hple)
      linarith
    exact jround_bounds _ hq0 hq1

/-- Claim C6 witness: the membership equivalence of the theorem evaluated on
the sample log at hour 6, and the bound applied to the head bucket. -/
theorem c6_peak_hour_analysis_witness :
    (6 ∈ (hourlyCounts simulatedCSVData).map Prod.fst ↔
      6 ∈ simulatedCSVData.map Flight.scheduledHour) ∧
    (∀ b ∈ computePeakAnalysis simulatedCSVData,
      0 ≤ b.utilization ∧ b.utilization ≤ 100) :=
  ⟨(c6_peak_hour_analysis simulatedCSVData).2.2.1 6,
   fun b hb => ((c6_peak_hour_analysis simulatedCSVData).2.2.2.2.2 b hb).2⟩

/-- Claim C4 witness: the statement applied to the sample log, the inner
hypothesis discharged on a record without `delayMinutes`. -/
theorem c4_delay_distribution_witness :
    delayVal sampleFlight = 0 ∧
    (computeStatistics simulatedCSVData).delayMinor +
      (computeStatistics simulatedCSVData).delayMajor +
      (computeStatistics simulatedCSVData).delayCritical =
      (computeStatistics simulatedCSVData).totalFlights :=
  ⟨((c4_delay_distribution simulatedCSVData).2.2.2.1 _ rfl).1,
   (c4_delay_distribution simulatedCSVData).2.2.2.2⟩

end FlightScheduler
